import Mathlib

/-!
Verification development for the `flory_compute` repository.

The central object is `CoexistingPhasesFinder` from `src/flory/mcmp.py`: a
finder for coexisting phases of multicomponent Flory-Huggins mixtures.  This
file gives a shallow embedding of that class (its constructor, re-seeders,
setters and `run` driver) together with models of the iteration kernel
(`multicomponent_self_consistent_metastep`), the final copy-revive pass
(`revive_compartments_by_copy`) and the clustering pass (`get_clusters`).
Those three routines live in `flory.detail.mcmp_impl`, which is not part of
the sources; they are modelled from the specification (sections 4.C, 4.D and
4.G) and each such definition is marked `Modelled from the spec:` in its doc
comment.

All definitions are polymorphic over a linear ordered field `K`; numeric
theorems instantiate `K` with `ℚ` (for executable witnesses) or `ℝ` (for the
`exp`/`log` round-trip).  The transcendental functions `exp` and `log` of
numpy are passed as explicit function parameters, and the Lagrange
multiplier of the omega update (whose closed form the spec leaves open, see
spec section 9) is a parameter `lam` of the kernel; every theorem about the
iteration holds for an arbitrary choice of these parameters.
-/

namespace FloryCompute

/-- Python exceptions raised by the finder.  `VolumeFractionError` (declared
in `src/flory/common/exceptions.py`) is a subclass of `ValueError`; we keep
the constructors separate so that theorems can distinguish them. -/
inductive PyErr : Type where
  | valueError (msg : String) : PyErr
  | typeError (msg : String) : PyErr
  | volumeFractionError (msg : String) : PyErr
deriving DecidableEq, Repr

/-- A 1-D numpy array: its length and an entry function (entries outside the
range are irrelevant padding). -/
structure NpArray1 (K : Type) where
  size : ℕ
  entry : ℕ → K

/-- A 2-D numpy array: its shape and an entry function. -/
structure NpArray2 (K : Type) where
  rows : ℕ
  cols : ℕ
  entry : ℕ → ℕ → K

/-- Constant-filled 1-D array, modelling `np.full` / `np.ones` / `np.zeros`. -/
def NpArray1.full {K : Type} (n : ℕ) (x : K) : NpArray1 K := ⟨n, fun _ => x⟩

/-- Constant-filled 2-D array, modelling `np.full` / `np.zeros`. -/
def NpArray2.full {K : Type} (r c : ℕ) (x : K) : NpArray2 K := ⟨r, c, fun _ _ => x⟩

/-- The hyperparameters accepted by `CoexistingPhasesFinder.__init__`
(`src/flory/mcmp.py`, lines 36-50). -/
structure Config (K : Type) where
  max_steps : ℕ
  convergence_criterion : String
  tolerance : K
  interval : ℕ
  random_std : K
  acceptance_Js : K
  acceptance_omega : K
  Js_step_upper_bound : K
  kill_threshold : K
  revive_scaler : K
  max_revive_per_compartment : ℤ
  additional_chis_shift : K

/-- The state of a `CoexistingPhasesFinder` instance: validated system
parameters, hyperparameters, the mutable fields `omegas`, `Js`, `phis`, the
revive budget, and the random source.  The random source of numpy is
modelled as a deterministic stream `rng : ℕ → K` of unit normal draws
together with a cursor `rng_pos`; a fixed seed corresponds to a fixed
stream. -/
structure Finder (K : Type) where
  chis : NpArray2 K
  num_components : ℕ
  num_compartments : ℕ
  phi_means : NpArray1 K
  sizes : NpArray1 K
  max_steps : ℕ
  convergence_criterion : String
  tolerance : K
  interval : ℕ
  random_std : K
  acceptance_Js : K
  acceptance_omega : K
  Js_step_upper_bound : K
  kill_threshold : K
  revive_scaler : K
  max_revive_per_compartment : ℤ
  additional_chis_shift : K
  Js : NpArray1 K
  omegas : NpArray2 K
  phis : NpArray2 K
  revive_count_left : ℤ
  rng : ℕ → K
  rng_pos : ℕ

variable {K : Type} [LinearOrderedField K]

/-- `CoexistingPhasesFinder.reinitialize_random` (`src/flory/mcmp.py`,
lines 228-240): draw a fresh `omegas` of shape `(N_c, M)` from the random
source with standard deviation `random_std`, set every `Js` entry to `1`,
and reset the revive budget to `max_revive_per_compartment * M`. -/
def reinitialize_random (f : Finder K) : Finder K :=
  { f with
    omegas := ⟨f.num_components, f.num_compartments,
      fun i m => f.random_std * f.rng (f.rng_pos + i * f.num_compartments + m)⟩
    rng_pos := f.rng_pos + f.num_components * f.num_compartments
    Js := NpArray1.full f.num_compartments 1
    revive_count_left := f.max_revive_per_compartment * f.num_compartments }

/-- `CoexistingPhasesFinder.__init__` (`src/flory/mcmp.py`, lines 30-226).
Validation, in source order: `chis` must be square (else `ValueError`);
`phi_means` must have matching length (else `ValueError`; a sum deviating
from 1 only logs a warning); `sizes`, when given, must have matching length
(else `ValueError`; non-positive entries only log a warning).  Then the
internal fields are zero-initialized, the budget is seeded, and
`reinitialize_random` is called.  No check of the values of `phi_means` is
performed. -/
def mkFinder (chis : NpArray2 K) (phi_means : NpArray1 K) (num_compartments : ℕ)
    (sizes : Option (NpArray1 K)) (rng : ℕ → K) (cfg : Config K) :
    Except PyErr (Finder K) :=
  if chis.rows = chis.cols then
    if phi_means.size = chis.rows then
      match sizes with
      | none => Except.ok (reinitialize_random
          { chis := chis
            num_components := chis.rows
            num_compartments := num_compartments
            phi_means := phi_means
            sizes := NpArray1.full chis.rows 1
            max_steps := cfg.max_steps
            convergence_criterion := cfg.convergence_criterion
            tolerance := cfg.tolerance
            interval := cfg.interval
            random_std := cfg.random_std
            acceptance_Js := cfg.acceptance_Js
            acceptance_omega := cfg.acceptance_omega
            Js_step_upper_bound := cfg.Js_step_upper_bound
            kill_threshold := cfg.kill_threshold
            revive_scaler := cfg.revive_scaler
            max_revive_per_compartment := cfg.max_revive_per_compartment
            additional_chis_shift := cfg.additional_chis_shift
            Js := NpArray1.full num_compartments 0
            omegas := NpArray2.full chis.rows num_compartments 0
            phis := NpArray2.full chis.rows num_compartments 0
            revive_count_left := cfg.max_revive_per_compartment * num_compartments
            rng := rng
            rng_pos := 0 })
      | some s =>
          if s.size = chis.rows then
            Except.ok (reinitialize_random
              { chis := chis
                num_components := chis.rows
                num_compartments := num_compartments
                phi_means := phi_means
                sizes := s
                max_steps := cfg.max_steps
                convergence_criterion := cfg.convergence_criterion
                tolerance := cfg.tolerance
                interval := cfg.interval
                random_std := cfg.random_std
                acceptance_Js := cfg.acceptance_Js
                acceptance_omega := cfg.acceptance_omega
                Js_step_upper_bound := cfg.Js_step_upper_bound
                kill_threshold := cfg.kill_threshold
                revive_scaler := cfg.revive_scaler
                max_revive_per_compartment := cfg.max_revive_per_compartment
                additional_chis_shift := cfg.additional_chis_shift
                Js := NpArray1.full num_compartments 0
                omegas := NpArray2.full chis.rows num_compartments 0
                phis := NpArray2.full chis.rows num_compartments 0
                revive_count_left := cfg.max_revive_per_compartment * num_compartments
                rng := rng
                rng_pos := 0 })
          else Except.error (PyErr.valueError
            "sizes vector must imply same component number as chis matrix.")
    else Except.error (PyErr.valueError
      "phi_means vector must imply same component number as chis matrix.")
  else Except.error (PyErr.valueError "chis matrix must be square.")

/-- The constructor of `np.ndarray` applied to an existing data array, as on
line 250 of `src/flory/mcmp.py` (`omegas = np.ndarray(omegas)`).  Unlike
`np.array`, the `np.ndarray` constructor interprets its first argument as a
*shape*; a two-dimensional float array of conjugate fields cannot be
interpreted as a shape, so the call raises `TypeError`. -/
def np_ndarray_of_data (_a : NpArray2 K) : Except PyErr (NpArray2 K) :=
  Except.error (PyErr.typeError
    "only integer scalar arrays can be converted to a scalar index")

/-- `CoexistingPhasesFinder.reinitialize_from_omegas` (`src/flory/mcmp.py`,
lines 242-261), as written in the source: it first evaluates
`np.ndarray(omegas)` (the constructor misuse modelled by
`np_ndarray_of_data`), and only on success would compare shapes, assign the
field, set `Js` to ones and reset the revive budget.  Python methods mutate
in place, so the embedding returns the (possibly updated) state together
with an optional raised exception. -/
def reinitialize_from_omegas (f : Finder K) (omegas : NpArray2 K) :
    Finder K × Option PyErr :=
  match np_ndarray_of_data omegas with
  | Except.error e => (f, some e)
  | Except.ok o =>
    if o.rows = f.omegas.rows ∧ o.cols = f.omegas.cols then
      ({ f with
          omegas := o
          Js := NpArray1.full f.Js.size 1
          revive_count_left :=
            f.max_revive_per_compartment * f.num_compartments }, none)
    else (f, some (PyErr.valueError "New omegas must match the size of the old one."))

/-- Modelled from the spec: the intended semantics of
`reinitialize_from_omegas` (spec sections 4.F and 9: re-seeders rewrite
omega directly, set `J = 1` and reset the budget; the source's conversion
line is flagged as a bug by the spec). -/
def reinitialize_from_omegas_intended (f : Finder K) (omegas : NpArray2 K) :
    Finder K × Option PyErr :=
  if omegas.rows = f.omegas.rows ∧ omegas.cols = f.omegas.cols then
    ({ f with
        omegas := omegas
        Js := NpArray1.full f.Js.size 1
        revive_count_left :=
          f.max_revive_per_compartment * f.num_compartments }, none)
  else (f, some (PyErr.valueError "New omegas must match the size of the old one."))

/-- `CoexistingPhasesFinder.reinitialize_from_phis` (`src/flory/mcmp.py`,
lines 263-283): if the shape of `phis` matches that of the stored `omegas`,
assign `omegas[i, m] = -log(phis[i, m]) / sizes[i]`, set `Js` to ones and
reset the revive budget; otherwise raise `ValueError`.  The values of
`phis` are not checked: numpy's `np.log` merely warns on non-positive
input, so `log` is modelled as a total function parameter. -/
def reinitialize_from_phis (log : K → K) (f : Finder K) (phis : NpArray2 K) :
    Finder K × Option PyErr :=
  if phis.rows = f.omegas.rows ∧ phis.cols = f.omegas.cols then
    ({ f with
        omegas := ⟨f.num_components, f.num_compartments,
          fun i m => (- log (phis.entry i m)) / f.sizes.entry i⟩
        Js := NpArray1.full f.Js.size 1
        revive_count_left :=
          f.max_revive_per_compartment * f.num_compartments }, none)
  else (f, some (PyErr.valueError "phis must match the size of the omegas."))

/-- The `chis` setter (`src/flory/mcmp.py`, lines 294-310): on matching
shape, store the new matrix and reset the revive budget; on mismatch raise
`ValueError` without touching anything. -/
def set_chis (f : Finder K) (chis_new : NpArray2 K) : Finder K × Option PyErr :=
  if chis_new.rows = f.chis.rows ∧ chis_new.cols = f.chis.cols then
    ({ f with
        chis := chis_new
        revive_count_left :=
          f.max_revive_per_compartment * f.num_compartments }, none)
  else (f, some (PyErr.valueError "New chis must match the size of the old one."))

/-- The `phi_means` setter (`src/flory/mcmp.py`, lines 321-337): on matching
shape, store the new vector and reset the revive budget; on mismatch raise
`ValueError` without touching anything.  The values are not inspected. -/
def set_phi_means (f : Finder K) (phi_means_new : NpArray1 K) :
    Finder K × Option PyErr :=
  if phi_means_new.size = f.phi_means.size then
    ({ f with
        phi_means := phi_means_new
        revive_count_left :=
          f.max_revive_per_compartment * f.num_compartments }, none)
  else (f, some (PyErr.valueError "New phi_means must match the size of the old one."))

/-- The `sizes` setter (`src/flory/mcmp.py`, lines 348-364): on matching
shape, store the new vector and reset the revive budget; on mismatch raise
`ValueError` without touching anything. -/
def set_sizes (f : Finder K) (sizes_new : NpArray1 K) : Finder K × Option PyErr :=
  if sizes_new.size = f.sizes.size then
    ({ f with
        sizes := sizes_new
        revive_count_left :=
          f.max_revive_per_compartment * f.num_compartments }, none)
  else (f, some (PyErr.valueError "New sizes must match the size of the old one."))

/-- Sum of `f 0, …, f (n-1)`, the model of `np.sum` over one axis. -/
def sumRange (n : ℕ) (f : ℕ → K) : K := ((List.range n).map f).sum

/-- Maximum of `|f 0|, …, |f (n-1)|` (and `0` for `n = 0`), the model of
`np.max(np.abs(...))` over one axis. -/
def maxAbsRange (n : ℕ) (f : ℕ → K) : K :=
  ((List.range n).map (fun m => |f m|)).foldl max 0

/-- Maximum of `|f i m|` over the `r × c` grid. -/
def maxAbsRange2 (r c : ℕ) (f : ℕ → ℕ → K) : K :=
  maxAbsRange r (fun i => maxAbsRange c (fun m => f i m))

/-- Modelled from the spec (section 4.A, `entropy_invert`): the raw Boltzmann
factor `phi_raw[i, m] = exp(-sizes[i] * omegas[i, m])`.  The routine lives in
the missing `flory.detail.mcmp_impl`. -/
def phiRawOf (exp : K → K) (sizes : ℕ → K) (omegas : ℕ → ℕ → K) : ℕ → ℕ → K :=
  fun i m => exp (-(sizes i * omegas i m))

/-- Modelled from the spec (section 4.A): the per-compartment normalizer
`Q[m] = sum_i phi_means[i] * phi_raw[i, m]`. -/
def QOf (exp : K → K) (Nc : ℕ) (phi_means sizes : ℕ → K) (omegas : ℕ → ℕ → K) :
    ℕ → K :=
  fun m => sumRange Nc (fun i => phi_means i * phiRawOf exp sizes omegas i m)

/-- Modelled from the spec (section 4.C, step 1): the phi-recomputation
`phi[i, m] = phi_means[i] * phi_raw[i, m] / Q[m]`. -/
def computePhisOf (exp : K → K) (Nc : ℕ) (phi_means sizes : ℕ → K)
    (omegas : ℕ → ℕ → K) : ℕ → ℕ → K :=
  fun i m => phi_means i * phiRawOf exp sizes omegas i m /
    QOf exp Nc phi_means sizes omegas m

/-- The immutable inputs of one kernel step: dimensions, shifted interaction
matrix, means, sizes and hyperparameters. -/
structure KParams (K : Type) where
  Nc : ℕ
  M : ℕ
  chis : ℕ → ℕ → K
  phi_means : ℕ → K
  sizes : ℕ → K
  acceptance_Js : K
  Js_step_upper_bound : K
  acceptance_omega : K
  kill_threshold : K
  revive_scaler : K
  random_std : K

/-- The mutable state threaded through the kernel: the three fields, the
remaining revive budget, the random cursor, and the number of revives
performed since the current metastep began. -/
structure KState (K : Type) where
  omegas : ℕ → ℕ → K
  Js : ℕ → K
  phis : ℕ → ℕ → K
  budget : ℤ
  pos : ℕ
  count : ℕ

/-- The residual report of one kernel step (spec section 4.C, step 9). -/
structure StepInfo (K : Type) where
  max_abs_incomp : K
  max_abs_omega_diff : K
  max_abs_Js_diff : K
  safe : Bool

/-- Intermediate state of the revive pass (spec section 4.C, step 8). -/
structure ReviveState (K : Type) where
  omegas : ℕ → ℕ → K
  Js : ℕ → K
  budget : ℤ
  pos : ℕ
  count : ℕ

/-- Modelled from the spec (section 4.C, step 8): visit compartment `m`; if
it is dead and the budget is positive, re-seed its omega column from the
random stream with standard deviation `revive_scaler * random_std`, set its
`J` to `1`, decrement the budget and count the revive. -/
def reviveOne (Nc : ℕ) (revive_std : K) (rng : ℕ → K) (dead : ℕ → Bool)
    (rs : ReviveState K) (m : ℕ) : ReviveState K :=
  if dead m ∧ 0 < rs.budget then
    { omegas := fun i m' => if m' = m then revive_std * rng (rs.pos + i) else rs.omegas i m'
      Js := fun m' => if m' = m then 1 else rs.Js m'
      budget := rs.budget - 1
      pos := rs.pos + Nc
      count := rs.count + 1 }
  else rs

/-- Modelled from the spec (section 4.C): one self-consistent step of the
kernel in `flory.detail.mcmp_impl` (missing from the sources).  In order:
recompute `phis` from `omegas`; measure the incompressibility residual;
form the target omega `chis · phi + lam` — the closed form of the Lagrange
multiplier is left open by the spec (sections 4.C and 9), so it enters as
the parameter `lam`; propose the field deltas; rescale both deltas jointly
when the `Js` delta exceeds `Js_step_upper_bound`, marking the step unsafe;
apply the updates; kill compartments at or below `kill_threshold`; revive
dead compartments in ascending index within the budget (any revive makes
the step unsafe); report the post-scaling residual maxima. -/
def innerStep (exp : K → K) (lam : (ℕ → ℕ → K) → ℕ → K) (p : KParams K)
    (rng : ℕ → K) (st : KState K) : KState K × StepInfo K :=
  let phis' := computePhisOf exp p.Nc p.phi_means p.sizes st.omegas
  let Jnew := QOf exp p.Nc p.phi_means p.sizes st.omegas
  let incomp := fun m => sumRange p.Nc (fun i => phis' i m) - 1
  let max_abs_incomp := maxAbsRange p.M incomp
  let omega_target := fun i m =>
    sumRange p.Nc (fun j => p.chis i j * phis' j m) + lam phis' m
  let domega := fun i m => p.acceptance_omega * (omega_target i m - st.omegas i m)
  let dJ := fun m => p.acceptance_Js * (Jnew m - st.Js m)
  let maxJ := maxAbsRange p.M dJ
  let scale := if p.Js_step_upper_bound < maxJ then p.Js_step_upper_bound / maxJ else 1
  let safe1 : Bool := decide (¬ p.Js_step_upper_bound < maxJ)
  let omegas1 := fun i m => st.omegas i m + scale * domega i m
  let Js1 := fun m => st.Js m + scale * dJ m
  let dead := fun m => decide (Js1 m ≤ p.kill_threshold)
  let Js2 := fun m => if dead m then 0 else Js1 m
  let rs := (List.range p.M).foldl
    (reviveOne p.Nc (p.revive_scaler * p.random_std) rng dead)
    ⟨omegas1, Js2, st.budget, st.pos, st.count⟩
  (⟨rs.omegas, rs.Js, phis', rs.budget, rs.pos, rs.count⟩,
   ⟨max_abs_incomp,
    maxAbsRange2 p.Nc p.M (fun i m => scale * domega i m),
    maxAbsRange p.M (fun m => scale * dJ m),
    safe1 && decide (rs.count = st.count)⟩)

/-- Iterate `innerStep` a given number of times, keeping the report of the
last executed step. -/
def metastepGo (exp : K → K) (lam : (ℕ → ℕ → K) → ℕ → K) (p : KParams K)
    (rng : ℕ → K) : ℕ → KState K × StepInfo K → KState K × StepInfo K
  | 0, x => x
  | n + 1, (st, _) => metastepGo exp lam p rng n (innerStep exp lam p rng st)

/-- Modelled from the spec (section 4.E):
`multicomponent_self_consistent_metastep` from the missing
`flory.detail.mcmp_impl` runs `steps_inner` inner steps and returns the last
residuals, the total number of revives performed, and whether the last step
was safe. -/
def metastep (exp : K → K) (lam : (ℕ → ℕ → K) → ℕ → K) (p : KParams K)
    (rng : ℕ → K) (steps_inner : ℕ) (st : KState K) :
    KState K × StepInfo K × ℕ :=
  let r := metastepGo exp lam p rng steps_inner
    ({ st with count := 0 }, ⟨0, 0, 0, false⟩)
  (r.1, r.2, r.1.count)

/-- `steps_tracker = int(np.ceil(max_steps / interval))`
(`src/flory/mcmp.py`, line 406). -/
def stepsTrackerOf (max_steps interval : ℕ) : ℕ :=
  Nat.ceil ((max_steps : ℚ) / (interval : ℚ))

/-- `steps_inner = max(1, int(np.ceil(max_steps)) // steps_tracker)`
(`src/flory/mcmp.py`, line 407); for an integer `max_steps` the inner
ceiling is the identity. -/
def stepsInnerOf (max_steps interval : ℕ) : ℕ :=
  max 1 (max_steps / stepsTrackerOf max_steps interval)

/-- Minimum entry of the interaction matrix, the model of `chis.min()`. -/
def chisMinOf (chis : NpArray2 K) : K :=
  (((List.range chis.rows).map (fun i =>
      ((List.range chis.cols).map (fun j => chis.entry i j)))).flatten).foldl
    min (chis.entry 0 0)

/-- The accumulated state of the outer loop of `run`: kernel state, total
inner steps executed, last residual report, and (as pure instrumentation
for the budget-monotonicity statement) the budget recorded after each outer
iteration. -/
structure LoopRes (K : Type) where
  kst : KState K
  steps : ℕ
  info : StepInfo K
  trace : List ℤ

/-- The outer loop of `CoexistingPhasesFinder.run` (`src/flory/mcmp.py`,
lines 427-478): for each of the remaining outer iterations run one
metastep, add `steps_inner` to the step counter, carry the budget, then
apply the convergence criterion: under `"standard"`, stop when the last
step was safe and all three residuals are strictly below the tolerance;
any other criterion name raises `ValueError` at this point. -/
def runLoop (exp : K → K) (lam : (ℕ → ℕ → K) → ℕ → K) (p : KParams K)
    (rng : ℕ → K) (tolerance : K) (criterion : String) (steps_inner : ℕ) :
    ℕ → LoopRes K → Except PyErr (LoopRes K)
  | 0, acc => Except.ok acc
  | n + 1, acc =>
    let r := metastep exp lam p rng steps_inner acc.kst
    let acc' : LoopRes K :=
      ⟨r.1, acc.steps + steps_inner, r.2.1, acc.trace ++ [r.1.budget]⟩
    if criterion = "standard" then
      if r.2.1.safe = true ∧ tolerance > r.2.1.max_abs_incomp ∧
          tolerance > r.2.1.max_abs_omega_diff ∧
          tolerance > r.2.1.max_abs_Js_diff then
        Except.ok acc'
      else runLoop exp lam p rng tolerance criterion steps_inner n acc'
    else Except.error (PyErr.valueError
      ("Undefined convergence criterion: " ++ criterion))

/-- Modelled from the spec (section 4.D, final copy-revive):
`revive_compartments_by_copy` from the missing `flory.detail.mcmp_impl`
replaces the `(J, phi column)` of every compartment at or below
`kill_threshold` by a copy of a surviving compartment chosen through the
random stream (one draw per dead compartment, compartments visited in
ascending index); when no compartment survives, nothing changes. -/
def reviveByCopy [FloorRing K] (kill_threshold : K) (M : ℕ)
    (Js0 : ℕ → K) (phis0 : ℕ → ℕ → K) (rng : ℕ → K) (pos0 : ℕ) :
    (ℕ → K) × (ℕ → ℕ → K) × ℕ :=
  let survivors := (List.range M).filter (fun m => decide (kill_threshold < Js0 m))
  (List.range M).foldl
    (fun st m =>
      if Js0 m ≤ kill_threshold then
        if survivors.length = 0 then st
        else
          let idx := (Int.toNat ⌊rng st.2.2 * (survivors.length : K)⌋) % survivors.length
          let s := survivors.getD idx 0
          (fun m' => if m' = m then Js0 s else st.1 m',
           fun i m' => if m' = m then phis0 i s else st.2.1 i m',
           st.2.2 + 1)
      else st)
    (Js0, phis0, pos0)

/-- One phase cluster under construction: the index of the member with the
largest `J` (its representative), that largest `J`, and the accumulated
volume of the members. -/
structure Cluster (K : Type) where
  rep : ℕ
  repJ : K
  vol : K

/-- Modelled from the spec (section 4.G): insert compartment `m` into the
cluster list.  It joins the first cluster whose representative composition
is componentwise within `ctol`, adding its `J` to the cluster volume and
replacing the representative when its `J` is larger; otherwise it starts a
new cluster. -/
def addToClusters (ctol : K) (Nc : ℕ) (phis : ℕ → ℕ → K) (Js : ℕ → K) :
    List (Cluster K) → ℕ → List (Cluster K)
  | [], m => [⟨m, Js m, Js m⟩]
  | c :: rest, m =>
    if (List.range Nc).all (fun i => decide (|phis i m - phis i c.rep| ≤ ctol)) then
      (if c.repJ < Js m then (⟨m, Js m, c.vol + Js m⟩ : Cluster K)
       else ⟨c.rep, c.repJ, c.vol + Js m⟩) :: rest
    else c :: addToClusters ctol Nc phis Js rest m

/-- Modelled from the spec (section 4.G): cluster the `M` compartments in
ascending index. -/
def clustersOf (ctol : K) (Nc M : ℕ) (phis : ℕ → ℕ → K) (Js : ℕ → K) :
    List (Cluster K) :=
  (List.range M).foldl (addToClusters ctol Nc phis Js) []

/-- The composition row of a cluster: the phi column of its representative. -/
def compRow (Nc : ℕ) (phis : ℕ → ℕ → K) (c : Cluster K) : List K :=
  (List.range Nc).map (fun i => phis i c.rep)

/-- Lexicographic comparison of composition rows, the tie-breaker of the
phase ordering (spec section 4.G). -/
def lexLe : List K → List K → Bool
  | [], _ => true
  | _ :: _, [] => false
  | a :: as, b :: bs => if a < b then true else if b < a then false else lexLe as bs

/-- Phase ordering (spec section 4.G): descending volume, ties broken by
lexicographic order of the composition rows. -/
def clusterLE (Nc : ℕ) (phis : ℕ → ℕ → K) (a b : Cluster K) : Bool :=
  if b.vol < a.vol then true
  else if a.vol < b.vol then false
  else lexLe (compRow Nc phis a) (compRow Nc phis b)

/-- Insertion into a sorted cluster list. -/
def insertCluster (le : Cluster K → Cluster K → Bool) (c : Cluster K) :
    List (Cluster K) → List (Cluster K)
  | [] => [c]
  | d :: ds => if le c d then c :: d :: ds else d :: insertCluster le c ds

/-- Insertion sort of the cluster list. -/
def sortClusters (le : Cluster K → Cluster K → Bool) :
    List (Cluster K) → List (Cluster K)
  | [] => []
  | c :: cs => insertCluster le c (sortClusters le cs)

/-- Modelled from the spec (sections 4.G and 6): `get_clusters` from the
missing `flory.detail.mcmp_impl` groups the compartments into phases,
orders the phases by descending volume (ties lexicographic), normalizes the
phase volumes by their total, and returns the pair
`(phase_volumes, phase_compositions)` in that order. -/
def get_clusters (ctol : K) (Nc M : ℕ) (Js : ℕ → K) (phis : ℕ → ℕ → K) :
    List K × List (List K) :=
  let sorted := sortClusters (clusterLE Nc phis) (clustersOf ctol Nc M phis Js)
  let total := (sorted.map Cluster.vol).sum
  ((sorted.map (fun c => c.vol / total)), sorted.map (compRow Nc phis))

/-- The diagnostics mapping stored by `run` (`src/flory/mcmp.py`,
lines 490-498). -/
structure Diagnostics (K : Type) where
  steps : ℕ
  max_abs_incomp : K
  max_abs_omega_diff : K
  max_abs_js_diff : K
  revive_count_left : ℤ
  phis : NpArray2 K
  Js : NpArray1 K

/-- Everything produced by a successful `run`: the returned pair
`(phase_volumes, phase_compositions)`, the diagnostics, the finder state
after the run, and the instrumented budget trace. -/
structure RunOutput (K : Type) where
  result : List K × List (List K)
  diagnostics : Diagnostics K
  finder : Finder K
  budget_trace : List ℤ

/-- The keyword-override resolution of `run` for `max_steps`
(`src/flory/mcmp.py`, lines 397-398). -/
def resolvedMaxSteps (f : Finder K) (max_steps? : Option ℕ) : ℕ :=
  max_steps?.getD f.max_steps

/-- The keyword-override resolution of `run` for `tolerance`
(`src/flory/mcmp.py`, lines 399-400). -/
def resolvedTolerance (f : Finder K) (tolerance? : Option K) : K :=
  tolerance?.getD f.tolerance

/-- The keyword-override resolution of `run` for `interval`
(`src/flory/mcmp.py`, lines 401-402). -/
def resolvedInterval (f : Finder K) (interval? : Option ℕ) : ℕ :=
  interval?.getD f.interval

/-- The kernel parameters `run` passes to the metastep: the dimensions, the
shifted interaction matrix `chis - chis.min() + additional_chis_shift`
(`src/flory/mcmp.py`, lines 411-412), the means, sizes and the stepping
hyperparameters. -/
def runParamsOf (f : Finder K) : KParams K :=
  ⟨f.num_components, f.num_compartments,
   fun i j => f.chis.entry i j - chisMinOf f.chis + f.additional_chis_shift,
   f.phi_means.entry, f.sizes.entry, f.acceptance_Js, f.Js_step_upper_bound,
   f.acceptance_omega, f.kill_threshold, f.revive_scaler, f.random_std⟩

/-- The loop state `run` starts from: the finder's current fields and
budget, a zero step counter, a blank residual report and an empty trace. -/
def runInitOf (f : Finder K) : LoopRes K :=
  ⟨⟨f.omegas.entry, f.Js.entry, f.phis.entry, f.revive_count_left,
    f.rng_pos, 0⟩, 0, ⟨0, 0, 0, false⟩, []⟩

/-- The epilogue of `run` (`src/flory/mcmp.py`, lines 484-502): apply the
final copy-revive to copies of the fields, store the diagnostics, cluster,
and package `(phases_volumes, phases_compositions)` together with the
updated finder state. -/
def runFinish [FloorRing K] (ctol : K) (f : Finder K) (acc : LoopRes K) :
    RunOutput K :=
  let fin := reviveByCopy f.kill_threshold f.num_compartments acc.kst.Js
    acc.kst.phis f.rng acc.kst.pos
  let diag : Diagnostics K :=
    ⟨acc.steps, acc.info.max_abs_incomp, acc.info.max_abs_omega_diff,
     acc.info.max_abs_Js_diff, acc.kst.budget,
     ⟨f.num_components, f.num_compartments, fin.2.1⟩,
     ⟨f.num_compartments, fin.1⟩⟩
  ⟨get_clusters ctol f.num_components f.num_compartments fin.1 fin.2.1, diag,
   { f with
      omegas := ⟨f.num_components, f.num_compartments, acc.kst.omegas⟩
      Js := ⟨f.num_compartments, acc.kst.Js⟩
      phis := ⟨f.num_components, f.num_compartments, acc.kst.phis⟩
      revive_count_left := acc.kst.budget
      rng_pos := fin.2.2 },
   acc.trace⟩

/-- `CoexistingPhasesFinder.run` (`src/flory/mcmp.py`, lines 366-502):
resolve the keyword overrides against the stored defaults, derive
`steps_tracker` and `steps_inner`, run the outer loop, and finish with the
copy-revive, diagnostics and clustering epilogue.  The clustering tolerance
`ctol` is the documented parameter of the modelled `get_clusters`. -/
def run (exp : K → K) (lam : (ℕ → ℕ → K) → ℕ → K) [FloorRing K] (ctol : K)
    (f : Finder K) (max_steps? : Option ℕ) (tolerance? : Option K)
    (interval? : Option ℕ) : Except PyErr (RunOutput K) :=
  match runLoop exp lam (runParamsOf f) f.rng (resolvedTolerance f tolerance?)
      f.convergence_criterion
      (stepsInnerOf (resolvedMaxSteps f max_steps?) (resolvedInterval f interval?))
      (stepsTrackerOf (resolvedMaxSteps f max_steps?) (resolvedInterval f interval?))
      (runInitOf f) with
  | Except.error e => Except.error e
  | Except.ok acc => Except.ok (runFinish ctol f acc)

/-- The convenience function `coexisting_phases_finder`
(`src/flory/mcmp.py`, lines 505-539): construct the finder and run it once
with no overrides. -/
def coexisting_phases_finder (exp : K → K) (lam : (ℕ → ℕ → K) → ℕ → K)
    [FloorRing K] (ctol : K) (chis : NpArray2 K) (phi_means : NpArray1 K)
    (num_compartments : ℕ) (sizes : Option (NpArray1 K)) (rng : ℕ → K)
    (cfg : Config K) : Except PyErr (RunOutput K) :=
  match mkFinder chis phi_means num_compartments sizes rng cfg with
  | Except.error e => Except.error e
  | Except.ok f => run exp lam ctol f none none none

/-- The budget trajectory of one `run` invocation, starting from the budget
the finder holds when `run` is called: on success the instrumented trace,
on an exception just the starting value. -/
def runBudgetTraceOf (b0 : ℤ) (r : Except PyErr (RunOutput K)) : List ℤ :=
  match r with
  | Except.ok out => b0 :: out.budget_trace
  | Except.error _ => [b0]

/-- A constant-zero random stream, used by concrete instances. -/
def zeroRng : ℕ → ℚ := fun _ => 0

/-- A concrete stand-in for `np.exp` over `ℚ`, used only to instantiate the
kernel parameters in concrete witnesses. -/
def oneExp : ℚ → ℚ := fun _ => 1

/-- A concrete stand-in for the Lagrange-multiplier parameter. -/
def zeroLam : (ℕ → ℕ → ℚ) → ℕ → ℚ := fun _ _ => 0

/-- A concrete 2×2 zero interaction matrix. -/
def zeroChis2 : NpArray2 ℚ := ⟨2, 2, fun _ _ => 0⟩

/-- A concrete mean composition `[1/2, 1/2]`. -/
def halfMeans : NpArray1 ℚ := ⟨2, fun _ => 1/2⟩

/-- A concrete mean composition `[-1/2, 3/2]` with a negative entry (its sum
is still 1). -/
def negMeans : NpArray1 ℚ := ⟨2, fun i => if i = 0 then -1/2 else 3/2⟩

/-- A concrete hyperparameter choice with `max_steps = 1`, `interval = 1`,
tolerance `1` and vanishing acceptances, so that one inner step converges. -/
def cfgA : Config ℚ := ⟨1, "standard", 1, 1, 5, 0, 0, 1/1000, 0, 1, 16, 1⟩

/-- `cfgA` with an unknown convergence criterion name. -/
def cfgBad : Config ℚ := ⟨1, "mcmp", 1, 1, 5, 0, 0, 1/1000, 0, 1, 16, 1⟩

/-- A concrete finder over `ℚ` with two components and two compartments (the
state `mkFinder zeroChis2 halfMeans 2 none zeroRng cfgA` constructs). -/
def sampleFinder : Finder ℚ :=
  { chis := zeroChis2
    num_components := 2
    num_compartments := 2
    phi_means := halfMeans
    sizes := ⟨2, fun _ => 1⟩
    max_steps := 1
    convergence_criterion := "standard"
    tolerance := 1
    interval := 1
    random_std := 5
    acceptance_Js := 0
    acceptance_omega := 0
    Js_step_upper_bound := 1/1000
    kill_threshold := 0
    revive_scaler := 1
    max_revive_per_compartment := 16
    additional_chis_shift := 1
    Js := ⟨2, fun _ => 1⟩
    omegas := ⟨2, 2, fun _ _ => 0⟩
    phis := ⟨2, 2, fun _ _ => 0⟩
    revive_count_left := 32
    rng := zeroRng
    rng_pos := 4 }

/-- `sampleFinder` with an unknown convergence criterion name. -/
def badCritFinder : Finder ℚ :=
  { sampleFinder with convergence_criterion := "mcmp" }

/-- A 3×3 matrix, shape-incompatible with `sampleFinder.chis`. -/
def chis3 : NpArray2 ℚ := ⟨3, 3, fun _ _ => 0⟩

/-- A length-3 vector, shape-incompatible with the length-2 vectors of
`sampleFinder`. -/
def vec3 : NpArray1 ℚ := ⟨3, fun _ => 0⟩

/-- A well-shaped 2×2 conjugate-field array with non-integral entries. -/
def sampleOmegas : NpArray2 ℚ := ⟨2, 2, fun i m => 3/2 + i + m⟩

/-- A well-shaped 2×2 volume-fraction array whose entries are all `0`
(non-positive, so its elementwise logarithm diverges). -/
def nonposPhis : NpArray2 ℚ := ⟨2, 2, fun _ _ => 0⟩

/-- A concrete non-uniform mean composition `[1/4, 3/4]` over `ℝ`. -/
noncomputable def quarterMeansR : NpArray1 ℝ :=
  ⟨2, fun i => if i = 0 then 1/4 else 3/4⟩

/-- All-one sizes over `ℝ`. -/
def onesSizesR : NpArray1 ℝ := ⟨2, fun _ => 1⟩

/-- A 2×1 volume-fraction array with all entries `1/2`. -/
noncomputable def halfPhR : NpArray2 ℝ := ⟨2, 1, fun _ _ => 1/2⟩

/-- A 2×1 volume-fraction array with all entries `1`. -/
def onesPhR : NpArray2 ℝ := ⟨2, 1, fun _ _ => 1⟩

/-- A concrete finder over `ℝ` with two components, one compartment, and the
non-uniform mean composition `[1/4, 3/4]`. -/
noncomputable def sampleFinderR : Finder ℝ :=
  { chis := ⟨2, 2, fun _ _ => 0⟩
    num_components := 2
    num_compartments := 1
    phi_means := quarterMeansR
    sizes := onesSizesR
    max_steps := 1
    convergence_criterion := "standard"
    tolerance := 1
    interval := 1
    random_std := 5
    acceptance_Js := 0
    acceptance_omega := 0
    Js_step_upper_bound := 1/1000
    kill_threshold := 0
    revive_scaler := 1
    max_revive_per_compartment := 16
    additional_chis_shift := 1
    Js := ⟨1, fun _ => 1⟩
    omegas := ⟨2, 1, fun _ _ => 0⟩
    phis := ⟨2, 1, fun _ _ => 0⟩
    revive_count_left := 16
    rng := fun _ => 0
    rng_pos := 0 }

/-- C1 (counterexample): contrary to the claim, no `VolumeFractionError` is
raised.  Construction with the mean composition `[-1/2, 3/2]` (a negative
entry) succeeds, the `phi_means` setter accepts the same vector without an
exception, and `reinitialize_from_phis` with an all-zero (non-positive)
volume-fraction array returns without an exception. -/
theorem C1_counterexample :
    (mkFinder zeroChis2 negMeans 2 none zeroRng cfgA).isOk = true ∧
    (set_phi_means sampleFinder negMeans).2 = none ∧
    (reinitialize_from_phis Real.log sampleFinderR
      (⟨2, 1, fun _ _ => 0⟩ : NpArray2 ℝ)).2 = none := by
  refine ⟨by with_unfolding_all decide, by with_unfolding_all decide, ?_⟩
  simp [reinitialize_from_phis, sampleFinderR]

/-- C1 (amended): construction of the finder, the `phi_means` setter and
`reinitialize_from_phis` validate only shapes in `src/flory/mcmp.py`: with
matching shapes each succeeds and raises nothing — in particular no
`VolumeFractionError` — regardless of negative `phi_means` entries or
non-positive `phis` entries (a non-unit mean sum or a diverging logarithm
only produces a non-fatal warning). -/
theorem C1_amended_shape_only_validation (log : K → K) (chis : NpArray2 K)
    (phi_means : NpArray1 K) (M : ℕ) (rng : ℕ → K) (cfg : Config K)
    (f : Finder K) (pm : NpArray1 K) (ph : NpArray2 K)
    (h1 : chis.rows = chis.cols) (h2 : phi_means.size = chis.rows)
    (h3 : pm.size = f.phi_means.size)
    (h4 : ph.rows = f.omegas.rows) (h5 : ph.cols = f.omegas.cols) :
    (mkFinder chis phi_means M none rng cfg).isOk = true ∧
    (set_phi_means f pm).2 = none ∧
    (reinitialize_from_phis log f ph).2 = none := by
  refine ⟨?_, ?_, ?_⟩
  · rw [mkFinder, if_pos h1, if_pos h2]
    rfl
  · rw [set_phi_means, if_pos h3]
  · rw [reinitialize_from_phis, if_pos ⟨h4, h5⟩]

/-- Witness for C1 (amended): the instantiation at the concrete
shape-matching inputs of the counterexample. -/
theorem C1_amended_shape_only_validation_witness :
    (zeroChis2.rows = zeroChis2.cols ∧ negMeans.size = zeroChis2.rows ∧
      negMeans.size = sampleFinder.phi_means.size ∧
      nonposPhis.rows = sampleFinder.omegas.rows ∧
      nonposPhis.cols = sampleFinder.omegas.cols) ∧
    ((mkFinder zeroChis2 negMeans 2 none zeroRng cfgA).isOk = true ∧
      (set_phi_means sampleFinder negMeans).2 = none ∧
      (reinitialize_from_phis (fun x => -x) sampleFinder nonposPhis).2 = none) :=
  ⟨⟨rfl, rfl, rfl, rfl, rfl⟩,
    C1_amended_shape_only_validation (fun x => -x) zeroChis2 negMeans 2 zeroRng
      cfgA sampleFinder negMeans nonposPhis rfl rfl rfl rfl rfl⟩

/-- C3: the conversion on line 250 of `src/flory/mcmp.py`
(`omegas = np.ndarray(omegas)`) misuses the `np.ndarray` constructor, which
interprets its argument as a shape.  Evaluating `reinitialize_from_omegas`
at a well-shaped 2×2 conjugate-field array therefore raises `TypeError`
and leaves the finder unchanged — omega is not assigned, `J` is not set to
one, and the revive budget is not reset — whereas the intended semantics
(assign omega directly, set `J = 1`, reset the budget) holds of the
spec-modelled variant. -/
theorem C3_reinitialize_from_omegas_bug :
    reinitialize_from_omegas sampleFinder sampleOmegas =
      (sampleFinder, some (PyErr.typeError
        "only integer scalar arrays can be converted to a scalar index")) ∧
    reinitialize_from_omegas_intended sampleFinder sampleOmegas =
      ({ sampleFinder with
          omegas := sampleOmegas
          Js := NpArray1.full 2 1
          revive_count_left := 32 }, none) := by
  constructor
  · rfl
  · rw [reinitialize_from_omegas_intended, if_pos ⟨rfl, rfl⟩]
    with_unfolding_all rfl

/-- C5: assigning a shape-matching new value through the `chis`,
`phi_means` or `sizes` setter leaves the internal fields `omegas`, `Js` and
`phis` unchanged, resets the revive budget to
`max_revive_per_compartment * num_compartments`, and raises nothing. -/
theorem C5_setter_isolation (f : Finder K) (A : NpArray2 K) (v s : NpArray1 K)
    (hA1 : A.rows = f.chis.rows) (hA2 : A.cols = f.chis.cols)
    (hv : v.size = f.phi_means.size) (hszs : s.size = f.sizes.size) :
    ((set_chis f A).1.omegas = f.omegas ∧ (set_chis f A).1.Js = f.Js ∧
      (set_chis f A).1.phis = f.phis ∧
      (set_chis f A).1.revive_count_left =
        f.max_revive_per_compartment * f.num_compartments ∧
      (set_chis f A).2 = none) ∧
    ((set_phi_means f v).1.omegas = f.omegas ∧ (set_phi_means f v).1.Js = f.Js ∧
      (set_phi_means f v).1.phis = f.phis ∧
      (set_phi_means f v).1.revive_count_left =
        f.max_revive_per_compartment * f.num_compartments ∧
      (set_phi_means f v).2 = none) ∧
    ((set_sizes f s).1.omegas = f.omegas ∧ (set_sizes f s).1.Js = f.Js ∧
      (set_sizes f s).1.phis = f.phis ∧
      (set_sizes f s).1.revive_count_left =
        f.max_revive_per_compartment * f.num_compartments ∧
      (set_sizes f s).2 = none) := by
  rw [set_chis, if_pos ⟨hA1, hA2⟩, set_phi_means, if_pos hv, set_sizes,
    if_pos hszs]
  exact ⟨⟨rfl, rfl, rfl, rfl, rfl⟩, ⟨rfl, rfl, rfl, rfl, rfl⟩,
    ⟨rfl, rfl, rfl, rfl, rfl⟩⟩

/-- Witness for C5: the instantiation at `sampleFinder` with concrete
shape-matching replacement values. -/
theorem C5_setter_isolation_witness :
    (zeroChis2.rows = sampleFinder.chis.rows ∧
      zeroChis2.cols = sampleFinder.chis.cols ∧
      halfMeans.size = sampleFinder.phi_means.size ∧
      halfMeans.size = sampleFinder.sizes.size) ∧
    ((set_chis sampleFinder zeroChis2).1.omegas = sampleFinder.omegas ∧
      (set_chis sampleFinder zeroChis2).1.revive_count_left =
        sampleFinder.max_revive_per_compartment *
          sampleFinder.num_compartments ∧
      (set_phi_means sampleFinder halfMeans).1.Js = sampleFinder.Js ∧
      (set_sizes sampleFinder halfMeans).1.phis = sampleFinder.phis) := by
  have h := C5_setter_isolation sampleFinder zeroChis2 halfMeans halfMeans
    rfl rfl rfl rfl
  exact ⟨⟨rfl, rfl, rfl, rfl⟩, h.1.1, h.1.2.2.2.1, h.2.1.2.1, h.2.2.2.2.1⟩

/-- C10: a shape-mismatched argument makes each setter raise `ValueError`
and return the finder bitwise unchanged: the stored parameter keeps its old
value and the revive budget is not reset. -/
theorem C10_setter_shape_mismatch (f : Finder K) (A : NpArray2 K)
    (v s : NpArray1 K)
    (hA : ¬(A.rows = f.chis.rows ∧ A.cols = f.chis.cols))
    (hv : ¬ v.size = f.phi_means.size) (hszs : ¬ s.size = f.sizes.size) :
    set_chis f A =
      (f, some (PyErr.valueError "New chis must match the size of the old one.")) ∧
    set_phi_means f v =
      (f, some (PyErr.valueError "New phi_means must match the size of the old one.")) ∧
    set_sizes f s =
      (f, some (PyErr.valueError "New sizes must match the size of the old one.")) := by
  rw [set_chis, if_neg hA, set_phi_means, if_neg hv, set_sizes, if_neg hszs]
  exact ⟨rfl, rfl, rfl⟩

/-- Witness for C10: the instantiation at `sampleFinder` with 3×3 and
length-3 replacement values against its 2×2 and length-2 parameters. -/
theorem C10_setter_shape_mismatch_witness :
    (¬(chis3.rows = sampleFinder.chis.rows ∧
        chis3.cols = sampleFinder.chis.cols) ∧
      ¬ vec3.size = sampleFinder.phi_means.size ∧
      ¬ vec3.size = sampleFinder.sizes.size) ∧
    (set_chis sampleFinder chis3 =
      (sampleFinder,
        some (PyErr.valueError "New chis must match the size of the old one.")) ∧
     set_phi_means sampleFinder vec3 =
      (sampleFinder,
        some (PyErr.valueError "New phi_means must match the size of the old one.")) ∧
     set_sizes sampleFinder vec3 =
      (sampleFinder,
        some (PyErr.valueError "New sizes must match the size of the old one."))) :=
  ⟨⟨by decide, by decide, by decide⟩,
    C10_setter_shape_mismatch sampleFinder chis3 vec3 vec3
      (by decide) (by decide) (by decide)⟩

/-- Under the `"standard"` criterion the outer loop never raises, and its
step counter advances by `steps_inner` for each executed outer iteration,
of which there are at most as many as remain. -/
theorem runLoop_standard_ok (exp : K → K) (lam : (ℕ → ℕ → K) → ℕ → K)
    (p : KParams K) (rng : ℕ → K) (tol : K) (steps_inner : ℕ) (n : ℕ) :
    ∀ acc : LoopRes K, ∃ res : LoopRes K,
      runLoop exp lam p rng tol "standard" steps_inner n acc = Except.ok res ∧
      ∃ k, k ≤ n ∧ res.steps = acc.steps + k * steps_inner := by
  induction n with
  | zero =>
    intro acc
    exact ⟨acc, rfl, 0, Nat.le_refl 0, by simp⟩
  | succ n ih =>
    intro acc
    simp only [runLoop]
    rw [if_pos (by trivial)]
    split_ifs with h2
    · exact ⟨_, rfl, 1, by omega, by simp⟩
    · obtain ⟨res, hres, k, hk, hsteps⟩ := ih
        ⟨(metastep exp lam p rng steps_inner acc.kst).1,
          acc.steps + steps_inner,
          (metastep exp lam p rng steps_inner acc.kst).2.1,
          acc.trace ++ [(metastep exp lam p rng steps_inner acc.kst).1.budget]⟩
      refine ⟨res, hres, k + 1, by omega, ?_⟩
      rw [hsteps]
      show acc.steps + steps_inner + k * steps_inner = _
      ring

/-- With any other criterion name the outer loop raises the configuration
`ValueError` on its first iteration. -/
theorem runLoop_nonstandard_error (exp : K → K) (lam : (ℕ → ℕ → K) → ℕ → K)
    (p : KParams K) (rng : ℕ → K) (tol : K) (criterion : String)
    (steps_inner n : ℕ) (acc : LoopRes K) (hcrit : criterion ≠ "standard")
    (hn : 1 ≤ n) :
    runLoop exp lam p rng tol criterion steps_inner n acc =
      Except.error (PyErr.valueError
        ("Undefined convergence criterion: " ++ criterion)) := by
  match n, hn with
  | n + 1, _ =>
    simp only [runLoop]
    rw [if_neg hcrit]

/-- The override resolution for an explicit `max_steps` keyword. -/
theorem resolvedMaxSteps_some (f : Finder K) (ms : ℕ) :
    resolvedMaxSteps f (some ms) = ms := rfl

/-- The override resolution for an explicit `interval` keyword. -/
theorem resolvedInterval_some (f : Finder K) (iv : ℕ) :
    resolvedInterval f (some iv) = iv := rfl

/-- `steps_tracker` is positive whenever at least one step is requested and
the interval is positive. -/
theorem stepsTracker_pos (ms iv : ℕ) (hms : 1 ≤ ms) (hiv : 1 ≤ iv) :
    1 ≤ stepsTrackerOf ms iv := by
  unfold stepsTrackerOf
  refine Nat.ceil_pos.mpr (div_pos ?_ ?_)
  · exact_mod_cast hms
  · exact_mod_cast hiv

/-- `steps_tracker` never exceeds `max_steps` when the interval is
positive. -/
theorem stepsTracker_le (ms iv : ℕ) (hiv : 1 ≤ iv) :
    stepsTrackerOf ms iv ≤ ms := by
  unfold stepsTrackerOf
  refine Nat.ceil_le.mpr (div_le_self (Nat.cast_nonneg ms) ?_)
  exact_mod_cast hiv

/-- The planned total `steps_outer * steps_inner` never exceeds
`max_steps`. -/
theorem stepsOuter_mul_inner_le (ms iv : ℕ) (hms : 1 ≤ ms) (hiv : 1 ≤ iv) :
    stepsTrackerOf ms iv * stepsInnerOf ms iv ≤ ms := by
  have h1 := stepsTracker_pos ms iv hms hiv
  have h2 := stepsTracker_le ms iv hiv
  have h3 : 1 ≤ ms / stepsTrackerOf ms iv :=
    (Nat.one_le_div_iff (by omega)).mpr h2
  unfold stepsInnerOf
  rw [Nat.max_eq_right h3, Nat.mul_comm]
  exact Nat.div_mul_le_self ms _

/-- C9: determinism — constructing the finder and running it, twice, from
componentwise-identical inputs (interaction matrix, mean composition,
compartment count, sizes, the random stream standing for the seeded
generator, and all hyperparameters) yields identical results: the same
returned `(phase_volumes, phase_compositions)` pair and the same
diagnostics, since `run`'s output carries both. -/
theorem C9_determinism [FloorRing K] (exp : K → K) (lam : (ℕ → ℕ → K) → ℕ → K)
    (ctol : K) (chisL chisR : NpArray2 K) (pmL pmR : NpArray1 K) (ML MR : ℕ)
    (szL szR : Option (NpArray1 K)) (rngL rngR : ℕ → K) (cfgL cfgR : Config K)
    (h1 : chisL = chisR) (h2 : pmL = pmR) (h3 : ML = MR) (h4 : szL = szR)
    (h5 : rngL = rngR) (h6 : cfgL = cfgR) :
    coexisting_phases_finder exp lam ctol chisL pmL ML szL rngL cfgL =
      coexisting_phases_finder exp lam ctol chisR pmR MR szR rngR cfgR := by
  subst h1 h2 h3 h4 h5 h6
  rfl

/-- Witness for C9: the determinism theorem instantiated at a concrete
two-component, two-compartment system. -/
theorem C9_determinism_witness :
    (zeroChis2 = zeroChis2 ∧ halfMeans = halfMeans ∧ 2 = 2 ∧
      (none : Option (NpArray1 ℚ)) = none ∧ zeroRng = zeroRng ∧ cfgA = cfgA) ∧
    coexisting_phases_finder oneExp zeroLam (1/100) zeroChis2 halfMeans 2 none
        zeroRng cfgA =
      coexisting_phases_finder oneExp zeroLam (1/100) zeroChis2 halfMeans 2 none
        zeroRng cfgA :=
  ⟨⟨rfl, rfl, rfl, rfl, rfl, rfl⟩,
    C9_determinism oneExp zeroLam (1/100) zeroChis2 zeroChis2 halfMeans
      halfMeans 2 2 none none zeroRng zeroRng cfgA cfgA
      rfl rfl rfl rfl rfl rfl⟩

/-- C7: with at least one requested step and a positive interval, `run`
raises exactly when the convergence criterion is anything other than
`"standard"`, and under `"standard"` it always returns a result — failing
to meet the residual criterion within `max_steps` is not an error. -/
theorem C7_criterion_config_error [FloorRing K] (exp : K → K)
    (lam : (ℕ → ℕ → K) → ℕ → K) (ctol : K) (f : Finder K) (ms iv : ℕ)
    (tol? : Option K) (hms : 1 ≤ ms) (hiv : 1 ≤ iv) :
    ((∃ e, run exp lam ctol f (some ms) tol? (some iv) = Except.error e) ↔
      f.convergence_criterion ≠ "standard") ∧
    (f.convergence_criterion = "standard" →
      ∃ out, run exp lam ctol f (some ms) tol? (some iv) = Except.ok out) := by
  have hok : f.convergence_criterion = "standard" →
      ∃ out, run exp lam ctol f (some ms) tol? (some iv) = Except.ok out := by
    intro hstd
    obtain ⟨res, hres, -⟩ := runLoop_standard_ok exp lam (runParamsOf f) f.rng
      (resolvedTolerance f tol?)
      (stepsInnerOf (resolvedMaxSteps f (some ms)) (resolvedInterval f (some iv)))
      (stepsTrackerOf (resolvedMaxSteps f (some ms)) (resolvedInterval f (some iv)))
      (runInitOf f)
    refine ⟨runFinish ctol f res, ?_⟩
    unfold run
    rw [hstd, hres]
  refine ⟨⟨?_, ?_⟩, hok⟩
  · rintro ⟨e, he⟩ hstd
    obtain ⟨out, hout⟩ := hok hstd
    rw [hout] at he
    exact Except.noConfusion he
  · intro hne
    refine ⟨PyErr.valueError
      ("Undefined convergence criterion: " ++ f.convergence_criterion), ?_⟩
    unfold run
    rw [runLoop_nonstandard_error exp lam (runParamsOf f) f.rng
      (resolvedTolerance f tol?) f.convergence_criterion _ _ (runInitOf f) hne
      (by rw [resolvedMaxSteps_some, resolvedInterval_some]
          exact stepsTracker_pos ms iv hms hiv)]

/-- Witness for C7: the instantiation at the concrete finder configured
with the unknown criterion name, where `run` indeed raises. -/
theorem C7_criterion_config_error_witness :
    ((1 : ℕ) ≤ 1 ∧ (1 : ℕ) ≤ 1) ∧
    (((∃ e, run oneExp zeroLam (1/100) badCritFinder (some 1) none (some 1) =
        Except.error e) ↔ badCritFinder.convergence_criterion ≠ "standard") ∧
     (badCritFinder.convergence_criterion = "standard" →
      ∃ out, run oneExp zeroLam (1/100) badCritFinder (some 1) none (some 1) =
        Except.ok out)) :=
  ⟨⟨Nat.le_refl 1, Nat.le_refl 1⟩,
    C7_criterion_config_error oneExp zeroLam (1/100) badCritFinder 1 1 none
      (Nat.le_refl 1) (Nat.le_refl 1)⟩

/-- C6: for a requested `max_steps ≥ 1` and `interval ≥ 1`, `run` derives
`steps_outer = ceil(max_steps / interval)` and
`steps_inner = max(1, floor(max_steps / steps_outer))` as claimed, executes
at most `steps_outer` outer iterations of `steps_inner` inner steps each,
and the total inner-step count recorded in the diagnostics never exceeds
`max_steps`. -/
theorem C6_step_budget [FloorRing K] (exp : K → K) (lam : (ℕ → ℕ → K) → ℕ → K)
    (ctol : K) (f : Finder K) (ms iv : ℕ) (tol? : Option K)
    (hms : 1 ≤ ms) (hiv : 1 ≤ iv)
    (hcrit : f.convergence_criterion = "standard") :
    stepsTrackerOf ms iv = Nat.ceil ((ms : ℚ) / (iv : ℚ)) ∧
    stepsInnerOf ms iv = max 1 (ms / stepsTrackerOf ms iv) ∧
    ∃ out, run exp lam ctol f (some ms) tol? (some iv) = Except.ok out ∧
      (∃ k, k ≤ stepsTrackerOf ms iv ∧
        out.diagnostics.steps = k * stepsInnerOf ms iv) ∧
      out.diagnostics.steps ≤ ms := by
  refine ⟨rfl, rfl, ?_⟩
  obtain ⟨res, hres, k, hk, hsteps⟩ := runLoop_standard_ok exp lam
    (runParamsOf f) f.rng (resolvedTolerance f tol?)
    (stepsInnerOf (resolvedMaxSteps f (some ms)) (resolvedInterval f (some iv)))
    (stepsTrackerOf (resolvedMaxSteps f (some ms)) (resolvedInterval f (some iv)))
    (runInitOf f)
  rw [resolvedMaxSteps_some, resolvedInterval_some] at hres hk
  have hsteps' : res.steps = k * stepsInnerOf ms iv := by
    rw [hsteps]
    simp [runInitOf, resolvedMaxSteps_some, resolvedInterval_some]
  refine ⟨runFinish ctol f res, ?_, ⟨k, hk, hsteps'⟩, ?_⟩
  · unfold run
    rw [hcrit, resolvedMaxSteps_some, resolvedInterval_some, hres]
  · show res.steps ≤ ms
    rw [hsteps']
    calc k * stepsInnerOf ms iv
        ≤ stepsTrackerOf ms iv * stepsInnerOf ms iv :=
          Nat.mul_le_mul_right _ hk
      _ ≤ ms := stepsOuter_mul_inner_le ms iv hms hiv

/-- Witness for C6: the instantiation at the concrete standard-criterion
finder with one requested step and interval one. -/
theorem C6_step_budget_witness :
    ((1 : ℕ) ≤ 1 ∧ (1 : ℕ) ≤ 1 ∧
      sampleFinder.convergence_criterion = "standard") ∧
    (stepsTrackerOf 1 1 = Nat.ceil ((1 : ℚ) / (1 : ℚ)) ∧
     stepsInnerOf 1 1 = max 1 (1 / stepsTrackerOf 1 1) ∧
     ∃ out, run oneExp zeroLam (1/100) sampleFinder (some 1) none (some 1) =
        Except.ok out ∧
      (∃ k, k ≤ stepsTrackerOf 1 1 ∧
        out.diagnostics.steps = k * stepsInnerOf 1 1) ∧
      out.diagnostics.steps ≤ 1) :=
  ⟨⟨Nat.le_refl 1, Nat.le_refl 1, rfl⟩,
    C6_step_budget oneExp zeroLam (1/100) sampleFinder 1 1 none
      (Nat.le_refl 1) (Nat.le_refl 1) rfl⟩

/-- Visiting one compartment in the revive pass never increases the budget
and never makes a non-negative budget negative (a revive requires a
strictly positive budget). -/
theorem reviveOne_budget (Nc : ℕ) (std : K) (rng : ℕ → K) (dead : ℕ → Bool)
    (rs : ReviveState K) (m : ℕ) :
    (reviveOne Nc std rng dead rs m).budget ≤ rs.budget ∧
    (0 ≤ rs.budget → 0 ≤ (reviveOne Nc std rng dead rs m).budget) := by
  unfold reviveOne
  split_ifs with h
  · obtain ⟨-, h2⟩ := h
    constructor
    · show rs.budget - 1 ≤ rs.budget
      omega
    · intro _
      show (0 : ℤ) ≤ rs.budget - 1
      omega
  · exact ⟨le_refl _, fun h0 => h0⟩

/-- The whole revive pass never increases the budget and preserves its
non-negativity. -/
theorem reviveFold_budget (Nc : ℕ) (std : K) (rng : ℕ → K) (dead : ℕ → Bool) :
    ∀ (l : List ℕ) (rs : ReviveState K),
      (l.foldl (reviveOne Nc std rng dead) rs).budget ≤ rs.budget ∧
      (0 ≤ rs.budget → 0 ≤ (l.foldl (reviveOne Nc std rng dead) rs).budget)
  | [], rs => ⟨le_refl _, fun h => h⟩
  | m :: l, rs => by
    have h1 := reviveOne_budget Nc std rng dead rs m
    have h2 := reviveFold_budget Nc std rng dead l (reviveOne Nc std rng dead rs m)
    simp only [List.foldl_cons]
    exact ⟨le_trans h2.1 h1.1, fun h0 => h2.2 (h1.2 h0)⟩

/-- One kernel step never increases the budget and preserves its
non-negativity. -/
theorem innerStep_budget (exp : K → K) (lam : (ℕ → ℕ → K) → ℕ → K)
    (p : KParams K) (rng : ℕ → K) (st : KState K) :
    (innerStep exp lam p rng st).1.budget ≤ st.budget ∧
    (0 ≤ st.budget → 0 ≤ (innerStep exp lam p rng st).1.budget) := by
  constructor
  · exact (reviveFold_budget _ _ _ _ _ _).1
  · exact fun h0 => (reviveFold_budget _ _ _ _ _ _).2 h0

/-- Iterated kernel steps never increase the budget and preserve its
non-negativity. -/
theorem metastepGo_budget (exp : K → K) (lam : (ℕ → ℕ → K) → ℕ → K)
    (p : KParams K) (rng : ℕ → K) :
    ∀ (n : ℕ) (x : KState K × StepInfo K),
      (metastepGo exp lam p rng n x).1.budget ≤ x.1.budget ∧
      (0 ≤ x.1.budget → 0 ≤ (metastepGo exp lam p rng n x).1.budget)
  | 0, _ => ⟨le_refl _, fun h => h⟩
  | n + 1, (st, info) => by
    have h1 := innerStep_budget exp lam p rng st
    have h2 := metastepGo_budget exp lam p rng n (innerStep exp lam p rng st)
    exact ⟨le_trans h2.1 h1.1, fun h0 => h2.2 (h1.2 h0)⟩

/-- A metastep never increases the budget and preserves its
non-negativity. -/
theorem metastep_budget (exp : K → K) (lam : (ℕ → ℕ → K) → ℕ → K)
    (p : KParams K) (rng : ℕ → K) (k : ℕ) (st : KState K) :
    (metastep exp lam p rng k st).1.budget ≤ st.budget ∧
    (0 ≤ st.budget → 0 ≤ (metastep exp lam p rng k st).1.budget) := by
  have h := metastepGo_budget exp lam p rng k
    ({ st with count := 0 }, ⟨0, 0, 0, false⟩)
  exact ⟨h.1, fun h0 => h.2 h0⟩

/-- Along a successful outer loop the recorded budgets form a weakly
decreasing chain from the starting budget, the final budget never exceeds
the starting one, and a non-negative start keeps every recorded budget and
the final budget non-negative. -/
theorem runLoop_trace_spec (exp : K → K) (lam : (ℕ → ℕ → K) → ℕ → K)
    (p : KParams K) (rng : ℕ → K) (tol : K) (criterion : String)
    (steps_inner : ℕ) :
    ∀ (n : ℕ) (acc res : LoopRes K),
      runLoop exp lam p rng tol criterion steps_inner n acc = Except.ok res →
      ∃ tr, res.trace = acc.trace ++ tr ∧
        List.Chain' (fun a b => b ≤ a) (acc.kst.budget :: tr) ∧
        res.kst.budget ≤ acc.kst.budget ∧
        (0 ≤ acc.kst.budget → (∀ b ∈ tr, 0 ≤ b) ∧ 0 ≤ res.kst.budget) := by
  intro n
  induction n with
  | zero =>
    intro acc res h
    simp only [runLoop, Except.ok.injEq] at h
    subst h
    exact ⟨[], by simp, by simp, le_refl _, fun h0 => ⟨by simp, h0⟩⟩
  | succ n ih =>
    intro acc res h
    have hb := metastep_budget exp lam p rng steps_inner acc.kst
    simp only [runLoop] at h
    split_ifs at h with hstd hconv
    · rw [Except.ok.injEq] at h
      subst h
      refine ⟨[(metastep exp lam p rng steps_inner acc.kst).1.budget],
        rfl, ?_, hb.1, fun h0 => ⟨?_, (hb.2 h0)⟩⟩
      · exact List.chain'_cons.mpr ⟨hb.1, List.chain'_singleton _⟩
      · intro b hbmem
        rw [List.mem_singleton] at hbmem
        subst hbmem
        exact hb.2 h0
    · obtain ⟨tr, htr, hchain, hle, hnn⟩ := ih _ _ h
      refine ⟨(metastep exp lam p rng steps_inner acc.kst).1.budget :: tr,
        ?_, ?_, le_trans hle hb.1, fun h0 => ?_⟩
      · rw [htr]
        simp
      · exact List.chain'_cons.mpr ⟨hb.1, hchain⟩
      · refine ⟨?_, hnn (hb.2 h0) |>.2⟩
        intro b hbmem
        rcases List.mem_cons.mp hbmem with hb1 | hb2
        · subst hb1
          exact hb.2 h0
        · exact (hnn (hb.2 h0)).1 b hb2

/-- `run` succeeds exactly through a successful outer loop whose final
state it packages with `runFinish`. -/
theorem run_ok_elim [FloorRing K] (exp : K → K) (lam : (ℕ → ℕ → K) → ℕ → K)
    (ctol : K) (f : Finder K) (ms? : Option ℕ) (tol? : Option K)
    (iv? : Option ℕ) (out : RunOutput K)
    (h : run exp lam ctol f ms? tol? iv? = Except.ok out) :
    ∃ acc : LoopRes K,
      runLoop exp lam (runParamsOf f) f.rng (resolvedTolerance f tol?)
        f.convergence_criterion
        (stepsInnerOf (resolvedMaxSteps f ms?) (resolvedInterval f iv?))
        (stepsTrackerOf (resolvedMaxSteps f ms?) (resolvedInterval f iv?))
        (runInitOf f) = Except.ok acc ∧
      out = runFinish ctol f acc := by
  unfold run at h
  revert h
  cases hl : runLoop exp lam (runParamsOf f) f.rng (resolvedTolerance f tol?)
      f.convergence_criterion
      (stepsInnerOf (resolvedMaxSteps f ms?) (resolvedInterval f iv?))
      (stepsTrackerOf (resolvedMaxSteps f ms?) (resolvedInterval f iv?))
      (runInitOf f) with
  | error e =>
    intro h
    exact Except.noConfusion h
  | ok acc =>
    intro h
    rw [Except.ok.injEq] at h
    exact ⟨acc, rfl, h.symm⟩

/-- C8: across one invocation of `run`, the revive budget is monotonically
non-increasing from one outer iteration to the next (starting from the
budget held at entry) and, having started non-negative, never drops below
zero; the final budget reported in the diagnostics obeys the same
bounds. -/
theorem C8_revive_budget_monotone [FloorRing K] (exp : K → K)
    (lam : (ℕ → ℕ → K) → ℕ → K) (ctol : K) (f : Finder K)
    (ms? : Option ℕ) (tol? : Option K) (iv? : Option ℕ)
    (h0 : 0 ≤ f.revive_count_left) :
    List.Chain' (fun a b => b ≤ a)
      (runBudgetTraceOf f.revive_count_left (run exp lam ctol f ms? tol? iv?)) ∧
    (∀ b ∈ runBudgetTraceOf f.revive_count_left
        (run exp lam ctol f ms? tol? iv?), 0 ≤ b) ∧
    ∀ out, run exp lam ctol f ms? tol? iv? = Except.ok out →
      out.diagnostics.revive_count_left ≤ f.revive_count_left ∧
      0 ≤ out.diagnostics.revive_count_left := by
  cases hr : run exp lam ctol f ms? tol? iv? with
  | error e =>
    refine ⟨?_, ?_, ?_⟩
    · simp [runBudgetTraceOf]
    · simp [runBudgetTraceOf, h0]
    · intro out hout
      exact Except.noConfusion hout
  | ok out =>
    obtain ⟨acc, hl, ho⟩ := run_ok_elim exp lam ctol f ms? tol? iv? out hr
    obtain ⟨tr, htr, hchain, hle, hnn⟩ :=
      runLoop_trace_spec exp lam (runParamsOf f) f.rng (resolvedTolerance f tol?)
        f.convergence_criterion
        (stepsInnerOf (resolvedMaxSteps f ms?) (resolvedInterval f iv?))
        (stepsTrackerOf (resolvedMaxSteps f ms?) (resolvedInterval f iv?))
        _ _ hl
    have htr' : acc.trace = tr := by simpa [runInitOf] using htr
    have hbudget : (runInitOf f).kst.budget = f.revive_count_left := rfl
    have hout_trace : out.budget_trace = tr := by
      rw [ho]
      show acc.trace = tr
      exact htr'
    have hout_budget : out.diagnostics.revive_count_left = acc.kst.budget := by
      rw [ho]
      rfl
    refine ⟨?_, ?_, ?_⟩
    · show List.Chain' (fun a b => b ≤ a)
        (f.revive_count_left :: out.budget_trace)
      rw [hout_trace]
      rw [hbudget] at hchain
      exact hchain
    · show ∀ b ∈ f.revive_count_left :: out.budget_trace, 0 ≤ b
      intro b hbmem
      rcases List.mem_cons.mp hbmem with hb1 | hb2
      · subst hb1
        exact h0
      · rw [hout_trace] at hb2
        exact (hnn (hbudget ▸ h0)).1 b hb2
    · intro out' hout'
      rw [Except.ok.injEq] at hout'
      subst hout'
      rw [hout_budget]
      exact ⟨le_trans hle (le_of_eq hbudget), (hnn (hbudget ▸ h0)).2⟩

/-- Witness for C8: the budget-monotonicity theorem instantiated at the
concrete standard-criterion finder whose budget at entry is 32. -/
theorem C8_revive_budget_monotone_witness :
    0 ≤ sampleFinder.revive_count_left ∧
    (List.Chain' (fun a b => b ≤ a)
      (runBudgetTraceOf sampleFinder.revive_count_left
        (run oneExp zeroLam (1/100) sampleFinder none none none)) ∧
     (∀ b ∈ runBudgetTraceOf sampleFinder.revive_count_left
        (run oneExp zeroLam (1/100) sampleFinder none none none), 0 ≤ b) ∧
     ∀ out, run oneExp zeroLam (1/100) sampleFinder none none none =
        Except.ok out →
       out.diagnostics.revive_count_left ≤ sampleFinder.revive_count_left ∧
       0 ≤ out.diagnostics.revive_count_left) :=
  ⟨by decide,
    C8_revive_budget_monotone oneExp zeroLam (1/100) sampleFinder none none
      none (by decide)⟩

/-- Two range sums agree when their summands agree on the range. -/
theorem sumRange_congr (n : ℕ) (f g : ℕ → K) (h : ∀ i, i < n → f i = g i) :
    sumRange n f = sumRange n g := by
  unfold sumRange
  refine congrArg List.sum (List.map_congr_left ?_)
  intro a ha
  exact h a (List.mem_range.mp ha)

/-- Re-seeding the conjugate field from a strictly positive volume-fraction
field and performing one phi-recomputation yields, entrywise, the
mean-weighted normalization `phi_means[i] * phis[i,m] / Q[m]` with
`Q[m] = sum_j phi_means[j] * phis[j,m]`. -/
theorem reseed_recompute_eq (f : Finder ℝ) (ph : NpArray2 ℝ)
    (hr : ph.rows = f.omegas.rows) (hc : ph.cols = f.omegas.cols)
    (hsz : ∀ i, i < f.num_components → f.sizes.entry i ≠ 0)
    (hpos : ∀ i m, i < f.num_components → 0 < ph.entry i m) :
    ∀ i m, i < f.num_components →
      computePhisOf Real.exp f.num_components f.phi_means.entry f.sizes.entry
        ((reinitialize_from_phis Real.log f ph).1.omegas.entry) i m =
      f.phi_means.entry i * ph.entry i m /
        sumRange f.num_components (fun j => f.phi_means.entry j * ph.entry j m) := by
  have homega : ∀ i m,
      (reinitialize_from_phis Real.log f ph).1.omegas.entry i m =
        (- Real.log (ph.entry i m)) / f.sizes.entry i := by
    intro i m
    rw [reinitialize_from_phis, if_pos ⟨hr, hc⟩]
  have hraw : ∀ i m, i < f.num_components →
      phiRawOf Real.exp f.sizes.entry
        ((reinitialize_from_phis Real.log f ph).1.omegas.entry) i m =
        ph.entry i m := by
    intro i m hi
    unfold phiRawOf
    rw [homega i m]
    have harg : -(f.sizes.entry i *
        (- Real.log (ph.entry i m) / f.sizes.entry i)) =
        Real.log (ph.entry i m) := by
      have ha := hsz i hi
      field_simp
    rw [harg, Real.exp_log (hpos i m hi)]
  have hQ : ∀ m,
      QOf Real.exp f.num_components f.phi_means.entry f.sizes.entry
        ((reinitialize_from_phis Real.log f ph).1.omegas.entry) m =
      sumRange f.num_components (fun j => f.phi_means.entry j * ph.entry j m) := by
    intro m
    unfold QOf
    exact sumRange_congr _ _ _ (fun j hj => by rw [hraw j m hj])
  intro i m hi
  unfold computePhisOf
  rw [hraw i m hi, hQ m]

/-- C2 (amended): `reinitialize_from_phis` followed by one
phi-recomputation of the kernel recovers the componentwise product
`phi_means[i] * phis[i,m]` up to per-compartment normalization (exactly
`phi_means[i] * phis[i,m] / Q[m]` with `Q[m] = sum_j phi_means[j] *
phis[j,m]`); consequently it recovers `phis` itself up to normalization
when the mean composition is uniform: each compartment column of the
recomputed field is then a scalar multiple of the `phis` column. -/
theorem C2_reseed_roundtrip (f : Finder ℝ) (ph : NpArray2 ℝ)
    (hr : ph.rows = f.omegas.rows) (hc : ph.cols = f.omegas.cols)
    (hsz : ∀ i, i < f.num_components → f.sizes.entry i ≠ 0)
    (hpos : ∀ i m, i < f.num_components → 0 < ph.entry i m) :
    (∀ i m, i < f.num_components →
      computePhisOf Real.exp f.num_components f.phi_means.entry f.sizes.entry
        ((reinitialize_from_phis Real.log f ph).1.omegas.entry) i m =
      f.phi_means.entry i * ph.entry i m /
        sumRange f.num_components
          (fun j => f.phi_means.entry j * ph.entry j m)) ∧
    (∀ c, (∀ i, i < f.num_components → f.phi_means.entry i = c) →
      ∀ m i, i < f.num_components →
        computePhisOf Real.exp f.num_components f.phi_means.entry
          f.sizes.entry
          ((reinitialize_from_phis Real.log f ph).1.omegas.entry) i m =
        (c / sumRange f.num_components
            (fun j => f.phi_means.entry j * ph.entry j m)) * ph.entry i m) := by
  have hmain := reseed_recompute_eq f ph hr hc hsz hpos
  refine ⟨hmain, ?_⟩
  intro c hunif m i hi
  rw [hmain i m hi, hunif i hi]
  ring

/-- Witness for C2 (amended): the round-trip theorem instantiated at the
concrete two-component finder with the all-one volume-fraction field. -/
theorem C2_reseed_roundtrip_witness :
    (onesPhR.rows = sampleFinderR.omegas.rows ∧
     onesPhR.cols = sampleFinderR.omegas.cols ∧
     (∀ i, i < sampleFinderR.num_components →
        sampleFinderR.sizes.entry i ≠ 0) ∧
     (∀ i m, i < sampleFinderR.num_components → 0 < onesPhR.entry i m)) ∧
    ((∀ i m, i < sampleFinderR.num_components →
      computePhisOf Real.exp sampleFinderR.num_components
        sampleFinderR.phi_means.entry sampleFinderR.sizes.entry
        ((reinitialize_from_phis Real.log sampleFinderR
          onesPhR).1.omegas.entry) i m =
      sampleFinderR.phi_means.entry i * onesPhR.entry i m /
        sumRange sampleFinderR.num_components
          (fun j => sampleFinderR.phi_means.entry j * onesPhR.entry j m)) ∧
    (∀ c, (∀ i, i < sampleFinderR.num_components →
        sampleFinderR.phi_means.entry i = c) →
      ∀ m i, i < sampleFinderR.num_components →
        computePhisOf Real.exp sampleFinderR.num_components
          sampleFinderR.phi_means.entry sampleFinderR.sizes.entry
          ((reinitialize_from_phis Real.log sampleFinderR
            onesPhR).1.omegas.entry) i m =
        (c / sumRange sampleFinderR.num_components
            (fun j => sampleFinderR.phi_means.entry j * onesPhR.entry j m)) *
          onesPhR.entry i m)) :=
  ⟨⟨rfl, rfl, fun _ _ => one_ne_zero, fun _ _ _ => one_pos⟩,
    C2_reseed_roundtrip sampleFinderR onesPhR rfl rfl
      (fun _ _ => one_ne_zero) (fun _ _ _ => one_pos)⟩

/-- C2 (counterexample): with the non-uniform mean composition
`[1/4, 3/4]`, re-seeding from the constant field `phis = 1/2` and
recomputing yields the column `[1/4, 3/4]`, which is not a scalar multiple
of the column `[1/2, 1/2]`: the round trip does not recover `phis` up to
normalization. -/
theorem C2_reseed_roundtrip_counterexample :
    ¬ ∃ c : ℝ, ∀ i, i < sampleFinderR.num_components →
      computePhisOf Real.exp sampleFinderR.num_components
        sampleFinderR.phi_means.entry sampleFinderR.sizes.entry
        ((reinitialize_from_phis Real.log sampleFinderR
          halfPhR).1.omegas.entry) i 0 =
      c * halfPhR.entry i 0 := by
  rintro ⟨c, hcl⟩
  have hrec := reseed_recompute_eq sampleFinderR halfPhR rfl rfl
    (fun _ _ => one_ne_zero)
    (fun i m _ => by norm_num [halfPhR])
  have hS : sumRange sampleFinderR.num_components
      (fun j => sampleFinderR.phi_means.entry j * halfPhR.entry j 0) =
      1 / 2 := by
    show sumRange 2 _ = 1 / 2
    rw [sumRange]
    norm_num [List.range_succ, sampleFinderR, quarterMeansR, halfPhR]
  have h0 := hcl 0 (by norm_num [sampleFinderR])
  have h1 := hcl 1 (by norm_num [sampleFinderR])
  rw [hrec 0 0 (by norm_num [sampleFinderR]), hS] at h0
  rw [hrec 1 0 (by norm_num [sampleFinderR]), hS] at h1
  norm_num [sampleFinderR, quarterMeansR, halfPhR] at h0 h1
  linarith

/-- Inserting a compartment grows the cluster list by at most one. -/
theorem addToClusters_length (ctol : K) (Nc : ℕ) (phis : ℕ → ℕ → K)
    (Js : ℕ → K) :
    ∀ (cs : List (Cluster K)) (m : ℕ),
      (addToClusters ctol Nc phis Js cs m).length ≤ cs.length + 1
  | [], m => by simp [addToClusters]
  | c :: rest, m => by
    rw [addToClusters]
    split_ifs with h h2
    · simp
    · simp
    · have ih := addToClusters_length ctol Nc phis Js rest m
      simp only [List.length_cons]
      omega

/-- Inserting a compartment adds exactly its `J` to the total cluster
volume. -/
theorem addToClusters_vol_sum (ctol : K) (Nc : ℕ) (phis : ℕ → ℕ → K)
    (Js : ℕ → K) :
    ∀ (cs : List (Cluster K)) (m : ℕ),
      ((addToClusters ctol Nc phis Js cs m).map Cluster.vol).sum =
        (cs.map Cluster.vol).sum + Js m
  | [], m => by simp [addToClusters]
  | c :: rest, m => by
    rw [addToClusters]
    split_ifs with h h2
    · simp only [List.map_cons, List.sum_cons]
      ring
    · simp only [List.map_cons, List.sum_cons]
      ring
    · have ih := addToClusters_vol_sum ctol Nc phis Js rest m
      simp only [List.map_cons, List.sum_cons, ih]
      ring

/-- Inserting a compartment keeps every representative index either an old
representative or the inserted index. -/
theorem addToClusters_rep (ctol : K) (Nc : ℕ) (phis : ℕ → ℕ → K)
    (Js : ℕ → K) (P : ℕ → Prop) :
    ∀ (cs : List (Cluster K)) (m : ℕ), (∀ c ∈ cs, P c.rep) → P m →
      ∀ c ∈ addToClusters ctol Nc phis Js cs m, P c.rep
  | [], m => by
    intro hcs hm c hmem
    simp only [addToClusters, List.mem_singleton] at hmem
    subst hmem
    exact hm
  | d :: rest, m => by
    intro hcs hm c hmem
    rw [addToClusters] at hmem
    split_ifs at hmem with h h2
    · rcases List.mem_cons.mp hmem with h3 | h3
      · subst h3
        exact hm
      · exact hcs c (List.mem_cons_of_mem d h3)
    · rcases List.mem_cons.mp hmem with h3 | h3
      · subst h3
        exact hcs d (List.mem_cons_self d rest)
      · exact hcs c (List.mem_cons_of_mem d h3)
    · rcases List.mem_cons.mp hmem with h3 | h3
      · subst h3
        exact hcs c (List.mem_cons_self c rest)
      · exact addToClusters_rep ctol Nc phis Js P rest m
          (fun c' hc' => hcs c' (List.mem_cons_of_mem d hc')) hm c h3

/-- Folding compartments into the cluster list grows it by at most the
number of compartments. -/
theorem clustersFold_length (ctol : K) (Nc : ℕ) (phis : ℕ → ℕ → K)
    (Js : ℕ → K) :
    ∀ (l : List ℕ) (cs : List (Cluster K)),
      ((l.foldl (addToClusters ctol Nc phis Js) cs).length ≤
        cs.length + l.length)
  | [], cs => by simp
  | m :: l, cs => by
    have h1 := addToClusters_length ctol Nc phis Js cs m
    have ih := clustersFold_length ctol Nc phis Js l
      (addToClusters ctol Nc phis Js cs m)
    simp only [List.foldl_cons, List.length_cons]
    omega

/-- Folding compartments into the cluster list accumulates their total
`J`. -/
theorem clustersFold_vol_sum (ctol : K) (Nc : ℕ) (phis : ℕ → ℕ → K)
    (Js : ℕ → K) :
    ∀ (l : List ℕ) (cs : List (Cluster K)),
      (((l.foldl (addToClusters ctol Nc phis Js) cs).map Cluster.vol).sum =
        (cs.map Cluster.vol).sum + (l.map Js).sum)
  | [], cs => by simp
  | m :: l, cs => by
    have h1 := addToClusters_vol_sum ctol Nc phis Js cs m
    have ih := clustersFold_vol_sum ctol Nc phis Js l
      (addToClusters ctol Nc phis Js cs m)
    simp only [List.foldl_cons, List.map_cons, List.sum_cons, ih, h1]
    ring

/-- Folding compartments of the index range keeps every representative
inside the range of folded indices. -/
theorem clustersFold_rep (ctol : K) (Nc : ℕ) (phis : ℕ → ℕ → K)
    (Js : ℕ → K) (P : ℕ → Prop) :
    ∀ (l : List ℕ) (cs : List (Cluster K)), (∀ c ∈ cs, P c.rep) →
      (∀ m ∈ l, P m) →
      ∀ c ∈ l.foldl (addToClusters ctol Nc phis Js) cs, P c.rep
  | [], cs => fun hcs _ c hc => hcs c hc
  | m :: l, cs => by
    intro hcs hl c hc
    simp only [List.foldl_cons] at hc
    exact clustersFold_rep ctol Nc phis Js P l
      (addToClusters ctol Nc phis Js cs m)
      (addToClusters_rep ctol Nc phis Js P cs m hcs
        (hl m (List.mem_cons_self m l)))
      (fun m' hm' => hl m' (List.mem_cons_of_mem m hm')) c hc

/-- Sorted insertion is a permutation of consing. -/
theorem insertCluster_perm (le : Cluster K → Cluster K → Bool)
    (c : Cluster K) :
    ∀ l : List (Cluster K), List.Perm (insertCluster le c l) (c :: l)
  | [] => List.Perm.refl _
  | d :: ds => by
    rw [insertCluster]
    split_ifs with h
    · exact List.Perm.refl _
    · exact ((insertCluster_perm le c ds).cons d).trans (List.Perm.swap c d ds)

/-- The insertion sort of the cluster list is a permutation of it. -/
theorem sortClusters_perm (le : Cluster K → Cluster K → Bool) :
    ∀ l : List (Cluster K), List.Perm (sortClusters le l) l
  | [] => List.Perm.refl _
  | c :: cs =>
    (insertCluster_perm le c (sortClusters le cs)).trans
      ((sortClusters_perm le cs).cons c)

/-- Dividing every volume by a constant divides the total. -/
theorem sum_map_div (l : List (Cluster K)) (t : K) :
    (l.map (fun c => c.vol / t)).sum = (l.map Cluster.vol).sum / t := by
  induction l with
  | nil => simp
  | cons c cs ih =>
    simp only [List.map_cons, List.sum_cons, ih]
    rw [add_div]

/-- The modelled `get_clusters` satisfies the output contract of the spec:
as many volumes as composition rows, at most `M` phases, volumes summing
to one whenever any volume is present, rows of length `N_c`, and row sums
inheriting the incompressibility bound of the compartment columns. -/
theorem get_clusters_spec (ctol : K) (Nc M : ℕ) (Js : ℕ → K)
    (phis : ℕ → ℕ → K) :
    (get_clusters ctol Nc M Js phis).1.length =
      (get_clusters ctol Nc M Js phis).2.length ∧
    (get_clusters ctol Nc M Js phis).1.length ≤ M ∧
    (0 < sumRange M Js → (get_clusters ctol Nc M Js phis).1.sum = 1) ∧
    (∀ row ∈ (get_clusters ctol Nc M Js phis).2, row.length = Nc) ∧
    (∀ t : K, (∀ m, m < M → |sumRange Nc (fun i => phis i m) - 1| ≤ t) →
      ∀ row ∈ (get_clusters ctol Nc M Js phis).2, |row.sum - 1| ≤ t) := by
  have hperm : List.Perm
      (sortClusters (clusterLE Nc phis) (clustersOf ctol Nc M phis Js))
      (clustersOf ctol Nc M phis Js) :=
    sortClusters_perm (clusterLE Nc phis) (clustersOf ctol Nc M phis Js)
  have hlen : (sortClusters (clusterLE Nc phis)
      (clustersOf ctol Nc M phis Js)).length =
      (clustersOf ctol Nc M phis Js).length := hperm.length_eq
  have hvol : ((sortClusters (clusterLE Nc phis)
      (clustersOf ctol Nc M phis Js)).map Cluster.vol).sum =
      sumRange M Js := by
    rw [(hperm.map Cluster.vol).sum_eq]
    have h := clustersFold_vol_sum ctol Nc phis Js (List.range M) []
    simpa [clustersOf, sumRange] using h
  have hrep : ∀ c ∈ sortClusters (clusterLE Nc phis)
      (clustersOf ctol Nc M phis Js), c.rep < M := by
    intro c hc
    refine clustersFold_rep ctol Nc phis Js (fun m => m < M) (List.range M) []
      (by simp) (fun m hm => List.mem_range.mp hm) c ?_
    exact hperm.mem_iff.mp hc
  refine ⟨?_, ?_, ?_, ?_, ?_⟩
  · simp [get_clusters]
  · simp only [get_clusters, List.length_map]
    rw [hlen]
    have h := clustersFold_length ctol Nc phis Js (List.range M) []
    simpa [clustersOf] using h
  · intro hpos
    show ((sortClusters (clusterLE Nc phis)
        (clustersOf ctol Nc M phis Js)).map (fun c => c.vol / _)).sum = 1
    rw [sum_map_div, hvol]
    exact div_self (ne_of_gt hpos)
  · intro row hrow
    obtain ⟨c, -, rfl⟩ := List.mem_map.mp hrow
    simp [compRow]
  · intro t ht row hrow
    obtain ⟨c, hc, rfl⟩ := List.mem_map.mp hrow
    have : (compRow Nc phis c).sum = sumRange Nc (fun i => phis i c.rep) := rfl
    rw [this]
    exact ht c.rep (hrep c hc)

/-- C4: under the `"standard"` criterion `run` returns the tuple
`(phase_volumes, phase_compositions)` in that order (the pair produced by
the modelled `get_clusters` on the final post-copy-revive fields that the
diagnostics also record); `phase_volumes` has as many entries as
`phase_compositions` has rows, their common count `P` is at most `M`, the
volumes sum to one within `1e-10` whenever the final compartment volumes
have positive total, each composition row has length `N_c`, and the row
sums satisfy any bound the final compartment columns satisfy — in
particular they are within the run tolerance of one at convergence. -/
theorem C4_run_output [FloorRing K] (exp : K → K) (lam : (ℕ → ℕ → K) → ℕ → K)
    (ctol : K) (f : Finder K) (ms? : Option ℕ) (tol? : Option K)
    (iv? : Option ℕ) (hcrit : f.convergence_criterion = "standard") :
    ∃ out, run exp lam ctol f ms? tol? iv? = Except.ok out ∧
      out.result = get_clusters ctol f.num_components f.num_compartments
        out.diagnostics.Js.entry out.diagnostics.phis.entry ∧
      out.result.1.length = out.result.2.length ∧
      out.result.1.length ≤ f.num_compartments ∧
      (0 < sumRange f.num_compartments out.diagnostics.Js.entry →
        |out.result.1.sum - 1| ≤ 1 / 10000000000) ∧
      (∀ row ∈ out.result.2, row.length = f.num_components) ∧
      ∀ t : K, (∀ m, m < f.num_compartments →
          |sumRange f.num_components
            (fun i => out.diagnostics.phis.entry i m) - 1| ≤ t) →
        ∀ row ∈ out.result.2, |row.sum - 1| ≤ t := by
  obtain ⟨acc, hacc, -⟩ := runLoop_standard_ok exp lam (runParamsOf f) f.rng
    (resolvedTolerance f tol?)
    (stepsInnerOf (resolvedMaxSteps f ms?) (resolvedInterval f iv?))
    (stepsTrackerOf (resolvedMaxSteps f ms?) (resolvedInterval f iv?))
    (runInitOf f)
  have hres : (runFinish ctol f acc).result =
      get_clusters ctol f.num_components f.num_compartments
        (runFinish ctol f acc).diagnostics.Js.entry
        (runFinish ctol f acc).diagnostics.phis.entry := rfl
  have hspec := get_clusters_spec ctol f.num_components f.num_compartments
    (runFinish ctol f acc).diagnostics.Js.entry
    (runFinish ctol f acc).diagnostics.phis.entry
  refine ⟨runFinish ctol f acc, ?_, hres, ?_, ?_, ?_, ?_, ?_⟩
  · unfold run
    rw [hcrit, hacc]
  · rw [hres]
    exact hspec.1
  · rw [hres]
    exact hspec.2.1
  · intro hpos
    rw [hres, hspec.2.2.1 hpos]
    simp only [sub_self, abs_zero]
    positivity
  · rw [hres]
    exact hspec.2.2.2.1
  · rw [hres]
    exact hspec.2.2.2.2

set_option maxRecDepth 10000 in
/-- Witness for C4: the output theorem instantiated at the concrete
two-component, two-compartment standard-criterion finder; the final
decidable conjunct checks that at this instance the final volumes are
positive in total and every final compartment column sums to one within
the run tolerance, so the guarded conclusions are not vacuous. -/
theorem C4_run_output_witness :
    sampleFinder.convergence_criterion = "standard" ∧
    (∃ out, run oneExp zeroLam (1/100) sampleFinder none none none =
        Except.ok out ∧
      out.result = get_clusters (1/100) sampleFinder.num_components
        sampleFinder.num_compartments
        out.diagnostics.Js.entry out.diagnostics.phis.entry ∧
      out.result.1.length = out.result.2.length ∧
      out.result.1.length ≤ sampleFinder.num_compartments ∧
      (0 < sumRange sampleFinder.num_compartments out.diagnostics.Js.entry →
        |out.result.1.sum - 1| ≤ 1 / 10000000000) ∧
      (∀ row ∈ out.result.2, row.length = sampleFinder.num_components) ∧
      ∀ t : ℚ, (∀ m, m < sampleFinder.num_compartments →
          |sumRange sampleFinder.num_components
            (fun i => out.diagnostics.phis.entry i m) - 1| ≤ t) →
        ∀ row ∈ out.result.2, |row.sum - 1| ≤ t) ∧
    (run oneExp zeroLam (1/100) sampleFinder none none none).toOption.map
      (fun out =>
        decide (0 < sumRange sampleFinder.num_compartments
          out.diagnostics.Js.entry) &&
        decide (∀ m, m < sampleFinder.num_compartments →
          |sumRange sampleFinder.num_components
            (fun i => out.diagnostics.phis.entry i m) - 1| ≤
              sampleFinder.tolerance)) = some true :=
  ⟨rfl,
    C4_run_output oneExp zeroLam (1/100) sampleFinder none none none rfl,
    by with_unfolding_all decide⟩

end FloryCompute
